import Mathlib

/-!
Shallow embedding of the in-memory document collection from
`src/backend/database.py` (class `InMemoryCollection` and `init_database`).

Documents are Python dicts mapping string field names to JSON-like values;
the backing store maps an id value (the popped `"_id"` field, which may be
any value) to the remaining fields.  Python dicts are modelled as ordered
association lists whose insertion/update semantics (`d[k] = v` keeps the
position of an existing key, appends a new one) are given by `dictInsert`.
-/

namespace MemDB

/-- A JSON-like Python value: string, integer, boolean, list, or dict with
string keys (every document and query in the source uses string keys). -/
inductive Value where
  | str (s : String)
  | num (n : Int)
  | bool (b : Bool)
  | arr (items : List Value)
  | obj (fields : List (String × Value))

mutual

/-- Structural decidable equality on `Value` (Python `==` restricted to
same-type comparisons; this program never compares across types). -/
def Value.decEq : (a b : Value) → Decidable (a = b)
  | .str s, .str t =>
      if h : s = t then isTrue (by rw [h]) else isFalse (fun e => h (Value.str.inj e))
  | .num m, .num n =>
      if h : m = n then isTrue (by rw [h]) else isFalse (fun e => h (Value.num.inj e))
  | .bool x, .bool y =>
      if h : x = y then isTrue (by rw [h]) else isFalse (fun e => h (Value.bool.inj e))
  | .arr xs, .arr ys =>
      match Value.listDecEq xs ys with
      | isTrue h => isTrue (by rw [h])
      | isFalse h => isFalse (fun e => h (Value.arr.inj e))
  | .obj xs, .obj ys =>
      match Value.pairListDecEq xs ys with
      | isTrue h => isTrue (by rw [h])
      | isFalse h => isFalse (fun e => h (Value.obj.inj e))
  | .str _, .num _ => isFalse (fun h => Value.noConfusion h)
  | .str _, .bool _ => isFalse (fun h => Value.noConfusion h)
  | .str _, .arr _ => isFalse (fun h => Value.noConfusion h)
  | .str _, .obj _ => isFalse (fun h => Value.noConfusion h)
  | .num _, .str _ => isFalse (fun h => Value.noConfusion h)
  | .num _, .bool _ => isFalse (fun h => Value.noConfusion h)
  | .num _, .arr _ => isFalse (fun h => Value.noConfusion h)
  | .num _, .obj _ => isFalse (fun h => Value.noConfusion h)
  | .bool _, .str _ => isFalse (fun h => Value.noConfusion h)
  | .bool _, .num _ => isFalse (fun h => Value.noConfusion h)
  | .bool _, .arr _ => isFalse (fun h => Value.noConfusion h)
  | .bool _, .obj _ => isFalse (fun h => Value.noConfusion h)
  | .arr _, .str _ => isFalse (fun h => Value.noConfusion h)
  | .arr _, .num _ => isFalse (fun h => Value.noConfusion h)
  | .arr _, .bool _ => isFalse (fun h => Value.noConfusion h)
  | .arr _, .obj _ => isFalse (fun h => Value.noConfusion h)
  | .obj _, .str _ => isFalse (fun h => Value.noConfusion h)
  | .obj _, .num _ => isFalse (fun h => Value.noConfusion h)
  | .obj _, .bool _ => isFalse (fun h => Value.noConfusion h)
  | .obj _, .arr _ => isFalse (fun h => Value.noConfusion h)

/-- Decidable equality for lists of values. -/
def Value.listDecEq : (xs ys : List Value) → Decidable (xs = ys)
  | [], [] => isTrue rfl
  | [], _ :: _ => isFalse (fun h => List.noConfusion h)
  | _ :: _, [] => isFalse (fun h => List.noConfusion h)
  | x :: xs, y :: ys =>
      match Value.decEq x y with
      | isFalse h => isFalse (fun e => h (List.cons.inj e).1)
      | isTrue h1 =>
          match Value.listDecEq xs ys with
          | isTrue h2 => isTrue (by rw [h1, h2])
          | isFalse h2 => isFalse (fun e => h2 (List.cons.inj e).2)

/-- Decidable equality for lists of (field name, value) pairs. -/
def Value.pairListDecEq : (xs ys : List (String × Value)) → Decidable (xs = ys)
  | [], [] => isTrue rfl
  | [], _ :: _ => isFalse (fun h => List.noConfusion h)
  | _ :: _, [] => isFalse (fun h => List.noConfusion h)
  | (k, v) :: xs, (k', v') :: ys =>
      if hk : k = k' then
          match Value.decEq v v' with
          | isFalse h => isFalse (fun e => h (congrArg Prod.snd (List.cons.inj e).1))
          | isTrue hv =>
              match Value.pairListDecEq xs ys with
              | isTrue h2 => isTrue (by rw [hk, hv, h2])
              | isFalse h2 => isFalse (fun e => h2 (List.cons.inj e).2)
      else isFalse (fun e => hk (congrArg Prod.fst (List.cons.inj e).1))

end

instance : DecidableEq Value := Value.decEq

/-- A document body: a Python dict from field name to value. -/
abbrev Doc := List (String × Value)

/-- The backing store `self.data`: a Python dict from id value to document body. -/
abbrev Store := List (Value × Doc)

/-- A query: a Python dict from query key to query value. -/
abbrev Query := List (String × Value)

/-- Python `d[key]` on a dict: the value at the first (unique, for genuine
dicts) occurrence of `key`. -/
def dictLookup {α β : Type} [DecidableEq α] : List (α × β) → α → Option β
  | [], _ => none
  | (k, v) :: rest, key => if k = key then some v else dictLookup rest key

/-- Python `d[key] = val` on a dict: replace in place if `key` is present,
otherwise append at the end. -/
def dictInsert {α β : Type} [DecidableEq α] : List (α × β) → α → β → List (α × β)
  | [], key, val => [(key, val)]
  | (k, v) :: rest, key, val =>
      if k = key then (key, val) :: rest else (k, v) :: dictInsert rest key val

/-- Python `d.pop(key)`: the value at `key` together with the dict with that
entry removed, or `none` (a `KeyError` in the source) when `key` is absent. -/
def dictPop {α β : Type} [DecidableEq α] : List (α × β) → α → Option (β × List (α × β))
  | [], _ => none
  | (k, v) :: rest, key =>
      if k = key then some (v, rest)
      else match dictPop rest key with
        | some (w, rest') => some (w, (k, v) :: rest')
        | none => none

/-- Whether one character list is a prefix of another. -/
def charsStartWith : List Char → List Char → Bool
  | [], _ => true
  | _ :: _, [] => false
  | a :: as, b :: bs => decide (a = b) && charsStartWith as bs

/-- Whether one character list occurs contiguously inside another. -/
def charsContain (needle : List Char) (hay : List Char) : Bool :=
  charsStartWith needle hay ||
    (match hay with
     | [] => false
     | _ :: t => charsContain needle t)

/-- Python `needle in hay` for strings: substring test (the empty string is
contained in every string). -/
def strContains (needle hay : String) : Bool :=
  charsContain needle.toList hay.toList

/-- Python `c in s` for a single character `c`: whether `s` contains it. -/
def strHasChar (s : String) (c : Char) : Bool :=
  s.toList.any (fun a => decide (a = c))

/-- Splitting a character list at every occurrence of a separator character;
segments are kept even when empty, as Python `str.split(sep)` does. -/
def splitChars (c : Char) : List Char → List (List Char)
  | [] => [[]]
  | a :: rest =>
      match splitChars c rest with
      | h :: t => if a = c then [] :: h :: t else (a :: h) :: t
      | [] => [[a]]

/-- Python `s.split(".")`: the segments of `s` between the dots. -/
def strSplitDot (s : String) : List String :=
  (splitChars '.' s.toList).map String.mk

/-- Python's `in` operator, `item in container`: membership for lists, key
membership for dicts, substring for strings.  The remaining combinations
raise `TypeError` in the source and are modelled as `false`. -/
def pyIn (item container : Value) : Bool :=
  match container with
  | .arr xs => xs.any (fun x => decide (x = item))
  | .obj m => m.any (fun p => decide (Value.str p.1 = item))
  | .str s =>
      match item with
      | .str t => strContains t s
      | _ => false
  | _ => false

/-- Python `for x in container`: the elements a `for` loop visits — list
items, dict keys, the characters of a string.  Non-iterable values raise
`TypeError` in the source and are modelled as yielding nothing. -/
def iterElems : Value → List Value
  | .arr xs => xs
  | .obj m => m.map (fun p => Value.str p.1)
  | .str s => s.toList.map (fun c => Value.str (String.mk [c]))
  | _ => []

/-- The dotted-path descent in `find` (`database.py` lines 29-36): starting
from the document, for each path segment, step into the segment if the
current value is a dict containing it; otherwise the clause fails (`none`). -/
def resolveSegs : Value → List String → Option Value
  | v, [] => some v
  | .obj m, seg :: rest =>
      match dictLookup m seg with
      | some v' => resolveSegs v' rest
      | none => none
  | _, _ :: _ => none

/-- One query clause of `find` (`database.py` lines 24-42), for the store
entry with key `key` and fields `fields`:
* `"_id"` clause: the entry's key must equal the query value;
* a key containing `"."`: resolve the dotted path through the fields; fail
  if resolution fails; if the query value is a dict containing `"$in"`,
  require some candidate to be contained in the resolved value; any other
  query value leaves the clause satisfied;
* otherwise the named field must exist and equal the query value. -/
def matchClause (key : Value) (fields : Doc) (qKey : String) (qVal : Value) : Bool :=
  if qKey = "_id" then decide (qVal = key)
  else if strHasChar qKey '.' then
    match resolveSegs (Value.obj fields) (strSplitDot qKey) with
    | none => false
    | some resolved =>
        match qVal with
        | .obj m =>
            match dictLookup m "$in" with
            | some cands => (iterElems cands).any (fun c => pyIn c resolved)
            | none => true
        | _ => true
  else
    match dictLookup fields qKey with
    | some v => decide (v = qVal)
    | none => false

/-- The `{"_id": k, **v}` merge used by `find`: a fresh dict with the entry
key first, then the document's fields written over it in order. -/
def mergeId (key : Value) (fields : Doc) : Doc :=
  fields.foldl (fun acc p => dictInsert acc p.1 p.2) [("_id", key)]

/-- `InMemoryCollection.find`: with no query, every entry merged with its id;
with a query, the entries (in store order) satisfying every clause. -/
def find (data : Store) (query : Option Query) : List Doc :=
  match query with
  | none => data.map (fun p => mergeId p.1 p.2)
  | some q =>
      (data.filter (fun p => q.all (fun c => matchClause p.1 p.2 c.1 c.2))).map
        (fun p => mergeId p.1 p.2)

/-- `InMemoryCollection.find_one`: the first result of `find`, if any. -/
def find_one (data : Store) (query : Query) : Option Doc :=
  (find data (some query)).head?

/-- `InMemoryCollection.insert_one`: pop `"_id"` from the document and store
the remaining fields under it; `none` models the `KeyError` the source
raises, before touching the store, when `"_id"` is absent. -/
def insert_one (data : Store) (doc : Doc) : Option (Value × Store) :=
  match dictPop doc "_id" with
  | some (docId, rest) => some (docId, dictInsert data docId rest)
  | none => none

/-- `InMemoryCollection.count_documents`: the length of `find(query or {})`
(`query or \x7b\x7d` replaces both an absent and an empty query by the empty
query, which matches everything). -/
def count_documents (data : Store) (query : Option Query) : Nat :=
  (find data (some (match query with
    | none => []
    | some q => if q.isEmpty then [] else q))).length

/-- Python's `in` operator with its error cases explicit: `none` is the
`TypeError` the source raises when the right operand is not a container. -/
def pyInE (item container : Value) : Option Bool :=
  match container with
  | .arr xs => some (xs.any (fun x => decide (x = item)))
  | .obj m => some (m.any (fun p => decide (Value.str p.1 = item)))
  | .str s =>
      match item with
      | .str t => some (strContains t s)
      | _ => none
  | _ => none

/-- One `"$push"` pair (`database.py` lines 60-64): append to the field's
list, or create a one-element list when the field is absent.  `none` is the
`AttributeError` the source raises calling `.append` on a present non-list
field. -/
def pushStep (d : Doc) (kv : String × Value) : Option Doc :=
  match dictLookup d kv.1 with
  | some (Value.arr xs) => some (dictInsert d kv.1 (Value.arr (xs ++ [kv.2])))
  | some _ => none
  | none => some (dictInsert d kv.1 (Value.arr [kv.2]))

/-- One `"$pull"` pair (`database.py` lines 66-68): when the field is present
and contains the value, `list.remove` drops the first occurrence; a missing
field or missing value is a no-op.  `none` is the `TypeError` of `value in`
a non-container field, or the `AttributeError` of `.remove` on a container
that is not a list. -/
def pullStep (d : Doc) (kv : String × Value) : Option Doc :=
  match dictLookup d kv.1 with
  | none => some d
  | some cur =>
      match pyInE kv.2 cur with
      | none => none
      | some false => some d
      | some true =>
          match cur with
          | Value.arr xs => some (dictInsert d kv.1 (Value.arr (xs.erase kv.2)))
          | _ => none

/-- One operator loop of `update_one`: each pair re-reads `self.data[doc_id]`,
mutates it, and writes it back in place.  The first pair raises `KeyError`
(`none`) when the id is not a store key, and a failing pair aborts the call;
an empty pair list never touches the store. -/
def applyPairs (data : Store) (docId : Value)
    (step : Doc → String × Value → Option Doc) :
    List (String × Value) → Option Store
  | [] => some data
  | kv :: rest =>
      match dictLookup data docId with
      | none => none
      | some d =>
          match step d kv with
          | none => none
          | some d' => applyPairs (dictInsert data docId d') docId step rest

/-- One operator batch of `update_one`: run the loop when the operator key
maps to a dict; a present non-dict value raises (`.items()`,
`AttributeError`, `none`); an absent key skips the batch. -/
def opBatch (data : Store) (docId : Value)
    (step : Doc → String × Value → Option Doc) : Option Value → Option Store
  | some (Value.obj kvs) => applyPairs data docId step kvs
  | some _ => none
  | none => some data

/-- `InMemoryCollection.update_one`: find the first matching document; if
none, report 0 modified and leave the store alone.  Otherwise apply the
`"$push"` batch and then the `"$pull"` batch to the stored document at the
found id and report 1 modified; `none` is an exception escaping from a
batch, in which case no handle is returned. -/
def update_one (data : Store) (query : Query) (update : Doc) :
    Option (Nat × Store) :=
  match find_one data query with
  | none => some (0, data)
  | some doc =>
      let docId := (dictLookup doc "_id").getD (Value.str "")
      (opBatch data docId pushStep (dictLookup update "$push")).bind fun data1 =>
        (opBatch data1 docId pullStep (dictLookup update "$pull")).map fun data2 =>
          (1, data2)

/-- The per-document day extraction inside `aggregate` (`database.py` lines
80-83): when `"schedule_details"` is a field whose value contains `"days"`,
the values iterated from indexing it at `"days"`.  Indexing a non-dict with
a string raises in the source and is modelled as yielding nothing. -/
def docDays (fields : Doc) : List Value :=
  match dictLookup fields "schedule_details" with
  | none => []
  | some sd =>
      if pyIn (Value.str "days") sd then
        match sd with
        | Value.obj m =>
            match dictLookup m "days" with
            | some d => iterElems d
            | none => []
        | _ => []
      else []

/-- All day values over the whole store, in store order. -/
def collectDays (data : Store) : List Value :=
  data.foldr (fun p acc => docDays p.2 ++ acc) []

/-- Constructor rank, used to order values of different types.  (Python's
`sorted` raises on cross-type comparisons; the program only ever sorts
same-typed day strings.) -/
def Value.rank : Value → Nat
  | .str _ => 0
  | .num _ => 1
  | .bool _ => 2
  | .arr _ => 3
  | .obj _ => 4

/-- The comparison behind `sorted(days)`: native order within strings,
integers and booleans, constructor rank across types. -/
def vle (a b : Value) : Bool :=
  match a, b with
  | .str s, .str t => decide (s ≤ t)
  | .num m, .num n => decide (m ≤ n)
  | .bool x, .bool y => !x || y
  | a, b => decide (a.rank ≤ b.rank)

/-- The comparison `vle` as a decidable relation, for `List.insertionSort`. -/
def rV : Value → Value → Prop := fun a b => vle a b = true

instance : DecidableRel rV := fun a b => inferInstanceAs (Decidable (vle a b = true))

/-- The pipeline test of `aggregate` (`database.py` line 78): exactly three
stages, the first containing `"$unwind"` and the second `"$group"`. -/
def pipelineShape (pipeline : List Value) : Bool :=
  decide (pipeline.length = 3) &&
    (match pipeline with
     | p0 :: p1 :: _ => pyIn (Value.str "$unwind") p0 && pyIn (Value.str "$group") p1
     | _ => false)

/-- `InMemoryCollection.aggregate`: on the recognized pipeline shape, the
distinct day values (`sorted` over the accumulated set), each wrapped as
`{"_id": day}`; every other shape yields `[]`. -/
def aggregate (data : Store) (pipeline : List Value) : List Doc :=
  if pipelineShape pipeline then
    (List.insertionSort rV (collectDays data).dedup).map
      (fun d => [("_id", d)])
  else []

/-- The per-collection seeding pattern of `init_database` (`database.py`
lines 96-107): when `count_documents(\x7b\x7d)` is zero, insert each seed
record in order; otherwise leave the store alone.  (A seed without `"_id"`
would raise in the source; the seeds in the source all carry one.) -/
def init_if_empty (data : Store) (seeds : List Doc) : Store :=
  if count_documents data (some []) = 0 then
    seeds.foldl (fun st doc =>
      match insert_one st doc with
      | some r => r.2
      | none => st) data
  else data

/-- Whether a value is a string (day values in the seed data all are). -/
def Value.isStr : Value → Bool
  | .str _ => true
  | _ => false

/-- A two-activity store shaped like the seed data, for concrete checks. -/
def sampleStore : Store :=
  [(Value.str "Chess Club",
    [("description", Value.str "Learn strategies"),
     ("schedule_details",
       Value.obj [("days", Value.arr [Value.str "Monday", Value.str "Friday"])]),
     ("participants", Value.arr [Value.str "michael@mergington.edu"])]),
   (Value.str "Math Club",
    [("schedule_details", Value.obj [("days", Value.arr [Value.str "Tuesday"])]),
     ("participants", Value.arr [Value.str "james@mergington.edu"])])]

/-- The 3-stage unwind/group/sort pipeline shape the API layer sends. -/
def samplePipeline : List Value :=
  [Value.obj [("$unwind", Value.str "$schedule_details.days")],
   Value.obj [("$group", Value.obj [("_id", Value.str "$schedule_details.days")])],
   Value.obj [("$sort", Value.num 1)]]

/-! ### Dictionary lemmas -/

theorem dictLookup_dictInsert_self {α β : Type} [DecidableEq α]
    (d : List (α × β)) (k : α) (v : β) :
    dictLookup (dictInsert d k v) k = some v := by
  induction d with
  | nil => simp [dictInsert, dictLookup]
  | cons p rest ih =>
      obtain ⟨k', v'⟩ := p
      by_cases h : k' = k
      · simp [dictInsert, dictLookup, h]
      · simp [dictInsert, dictLookup, h, ih]

theorem dictLookup_dictInsert_ne {α β : Type} [DecidableEq α]
    (d : List (α × β)) (k k' : α) (v : β) (h : k' ≠ k) :
    dictLookup (dictInsert d k v) k' = dictLookup d k' := by
  induction d with
  | nil => simp [dictInsert, dictLookup, Ne.symm h]
  | cons p rest ih =>
      obtain ⟨k0, v0⟩ := p
      by_cases h0 : k0 = k
      · subst h0
        simp [dictInsert, dictLookup, Ne.symm h]
      · simp only [dictInsert, if_neg h0, dictLookup]
        by_cases h1 : k0 = k'
        · simp [h1]
        · simp [h1, ih]

theorem dictLookup_eq_none_iff {α β : Type} [DecidableEq α]
    (d : List (α × β)) (k : α) :
    dictLookup d k = none ↔ k ∉ d.map Prod.fst := by
  induction d with
  | nil => simp [dictLookup]
  | cons p rest ih =>
      obtain ⟨k0, v0⟩ := p
      by_cases h : k0 = k
      · simp [dictLookup, h]
      · simp [dictLookup, h, ih, Ne.symm h]

theorem dictLookup_foldl_dictInsert {α β : Type} [DecidableEq α]
    (l : List (α × β)) (init : List (α × β)) (f : α)
    (hnd : (l.map Prod.fst).Nodup) :
    dictLookup (l.foldl (fun a p => dictInsert a p.1 p.2) init) f =
      match dictLookup l f with
      | some v => some v
      | none => dictLookup init f := by
  induction l generalizing init with
  | nil => simp [dictLookup]
  | cons p rest ih =>
      obtain ⟨k, v⟩ := p
      simp only [List.map_cons, List.nodup_cons] at hnd
      simp only [List.foldl_cons]
      rw [ih _ hnd.2]
      by_cases h : k = f
      · subst h
        have : dictLookup rest k = none :=
          (dictLookup_eq_none_iff rest k).mpr hnd.1
        simp [dictLookup, this, dictLookup_dictInsert_self]
      · simp only [dictLookup, if_neg h]
        cases hr : dictLookup rest f with
        | some w => rfl
        | none => exact dictLookup_dictInsert_ne init k f v (fun e => h e.symm)

theorem dictPop_eq_none {α β : Type} [DecidableEq α]
    (d : List (α × β)) (k : α) (h : dictLookup d k = none) :
    dictPop d k = none := by
  induction d with
  | nil => rfl
  | cons p rest ih =>
      obtain ⟨k0, v0⟩ := p
      simp only [dictLookup] at h
      by_cases h0 : k0 = k
      · simp [h0] at h
      · simp only [if_neg h0] at h
        simp [dictPop, h0, ih h]

theorem dictPop_of_lookup {α β : Type} [DecidableEq α]
    (d : List (α × β)) (k : α) (v : β) (h : dictLookup d k = some v) :
    ∃ rest, dictPop d k = some (v, rest) ∧
      (∀ k', k' ≠ k → dictLookup rest k' = dictLookup d k') ∧
      ((d.map Prod.fst).Nodup →
        dictLookup rest k = none ∧ (rest.map Prod.fst).Nodup) := by
  induction d with
  | nil => simp [dictLookup] at h
  | cons p rest ih =>
      obtain ⟨k0, v0⟩ := p
      by_cases h0 : k0 = k
      · subst h0
        simp only [dictLookup, if_pos, Option.some.injEq] at h
        subst h
        refine ⟨rest, by simp [dictPop], ?_, ?_⟩
        · intro k' hk'
          simp [dictLookup, Ne.symm hk']
        · intro hnd
          simp only [List.map_cons, List.nodup_cons] at hnd
          exact ⟨(dictLookup_eq_none_iff rest k0).mpr hnd.1, hnd.2⟩
      · simp only [dictLookup, if_neg h0] at h
        obtain ⟨rest', hpop, hne, hnd⟩ := ih h
        refine ⟨(k0, v0) :: rest', by simp [dictPop, h0, hpop], ?_, ?_⟩
        · intro k' hk'
          simp only [dictLookup]
          by_cases h1 : k0 = k'
          · simp [h1]
          · simp [h1, hne k' hk']
        · intro hnodup
          simp only [List.map_cons, List.nodup_cons] at hnodup
          obtain ⟨hnone, hnd'⟩ := hnd hnodup.2
          constructor
          · simp [dictLookup, h0, hnone]
          · simp only [List.map_cons, List.nodup_cons]
            exact ⟨(dictLookup_eq_none_iff rest' k0).mp
              ((hne k0 h0).trans ((dictLookup_eq_none_iff rest k0).mpr hnodup.1)),
              hnd'⟩

/-- A query with no clauses matches every store entry, like no query at all. -/
theorem find_empty_query (data : Store) : find data (some []) = find data none := by
  simp [find]

/-- C2: for every collection state and every query — absent, empty, or
non-empty — `count_documents` returns exactly the length of the sequence
`find` returns for the same query. -/
theorem count_documents_eq_length_find (data : Store) (query : Option Query) :
    count_documents data query = (find data query).length := by
  cases query with
  | none => rw [count_documents, find_empty_query]
  | some q =>
      by_cases hq : q.isEmpty
      · have he : q = [] := by
          cases q with
          | nil => rfl
          | cons a l => simp [List.isEmpty] at hq
        subst he
        rfl
      · simp [count_documents, hq]

/-- C5: inserting a document with no `"_id"` field fails (the `KeyError` of
`doc.pop("_id")`, modelled by `none`) and produces no new store: the
backing store is untouched. -/
theorem insert_one_missing_id (data : Store) (d : Doc)
    (h : dictLookup d "_id" = none) : insert_one data d = none := by
  unfold insert_one
  rw [dictPop_eq_none d _ h]

theorem insert_one_missing_id_w :
    insert_one [] [("activity", Value.str "Chess Club")] = none :=
  insert_one_missing_id [] [("activity", Value.str "Chess Club")] (by decide)

/-- C6: when the query matches no document, `update_one` reports a modified
count of 0 and returns the store unchanged — no document is mutated and no
operator batch is even reached. -/
theorem update_one_no_match (data : Store) (q : Query) (u : Doc)
    (h : find data (some q) = []) : update_one data q u = some (0, data) := by
  simp [update_one, find_one, h]

theorem update_one_no_match_w :
    update_one [(Value.str "Chess Club", [("max_participants", Value.num 12)])]
        [("_id", Value.str "Art Club")]
        [("$push", Value.obj [("participants", Value.str "x@mergington.edu")])] =
      some (0, [(Value.str "Chess Club", [("max_participants", Value.num 12)])]) :=
  update_one_no_match _ _ _ (by decide)

/-- C10, counterexample to the claim as stated: the claim promises a
modified-count-1 handle for every update once the query matches, but on the
seed data's own shape (`max_participants` is an integer) a matching
`update_one` with `{"$push": {"max_participants": 5}}` raises
(`.append` on an int, modelled by `none`) and returns no handle at all. -/
theorem update_one_match_count_one_cx :
    find [(Value.str "Chess Club", [("max_participants", Value.num 12)])]
        (some [("_id", Value.str "Chess Club")]) ≠ [] ∧
    update_one [(Value.str "Chess Club", [("max_participants", Value.num 12)])]
        [("_id", Value.str "Chess Club")]
        [("$push", Value.obj [("max_participants", Value.num 5)])] = none := by
  exact ⟨by decide, by decide⟩

/-- C10 (amended): whenever the query matches at least one document, every
handle `update_one` returns carries modified count 1 — a match that changes
nothing still reports 1 — and in particular an update with no recognized
operator returns the count-1 handle with the store untouched; but an
operator batch that raises (an ill-typed argument or field) escapes without
returning a handle. -/
theorem update_one_match_count_one (data : Store) (q : Query) (u : Doc)
    (h : find data (some q) ≠ []) :
    (∀ r : Nat × Store, update_one data q u = some r → r.1 = 1) ∧
    (dictLookup u "$push" = none → dictLookup u "$pull" = none →
      update_one data q u = some (1, data)) := by
  obtain ⟨doc, rest, hcons⟩ : ∃ doc rest, find data (some q) = doc :: rest := by
    cases hf : find data (some q) with
    | nil => exact absurd hf h
    | cons a l => exact ⟨a, l, rfl⟩
  constructor
  · intro r hr
    simp only [update_one, find_one, hcons, List.head?, Option.bind_eq_some,
      Option.map_eq_some'] at hr
    obtain ⟨d1, h1, d2, h2, he⟩ := hr
    rw [← he]
  · intro hp hl
    simp [update_one, find_one, hcons, hp, hl, opBatch]

theorem update_one_match_count_one_w :
    update_one [(Value.str "Chess Club", [("participants", Value.arr [])])]
        [("_id", Value.str "Chess Club")] [("unrecognized", Value.num 1)] =
      some (1, [(Value.str "Chess Club", [("participants", Value.arr [])])]) :=
  (update_one_match_count_one _ _ _ (by decide)).2 (by decide) (by decide)

/-- C9: a dotted-path clause whose resolution succeeds and whose query value
is not a dict containing `"$in"` is vacuously satisfied: no comparison with
the resolved value happens, so the clause holds for any resolved value. -/
theorem dotted_clause_vacuous (key : Value) (fields : Doc) (qk : String) (qv rv : Value)
    (hdot : strHasChar qk '.' = true)
    (hres : resolveSegs (Value.obj fields) (strSplitDot qk) = some rv)
    (hq : ∀ m, qv = Value.obj m → dictLookup m "$in" = none) :
    matchClause key fields qk qv = true := by
  have hne : qk ≠ "_id" := by
    intro e
    subst e
    exact absurd hdot (by decide)
  unfold matchClause
  rw [if_neg hne, if_pos hdot, hres]
  cases qv with
  | obj m => simp [hq m rfl]
  | str s => rfl
  | num n => rfl
  | bool b => rfl
  | arr xs => rfl

/-- C8: on a non-empty store the seeding entry point (the per-collection
body of `init_database`) is a no-op — the count-zero guard fails, nothing is
merged into the existing data, and running it a second time changes nothing
over running it once. -/
theorem init_if_empty_no_op (data : Store) (seeds : List Doc) (h : data ≠ []) :
    init_if_empty data seeds = data ∧
      init_if_empty (init_if_empty data seeds) seeds = init_if_empty data seeds := by
  have hcount : count_documents data (some []) = data.length := by
    show (find data (some [])).length = data.length
    rw [find_empty_query]
    simp [find]
  have h0 : ¬ count_documents data (some []) = 0 := by
    rw [hcount]
    simpa using h
  have hno : init_if_empty data seeds = data := by
    unfold init_if_empty
    rw [if_neg h0]
  refine ⟨hno, ?_⟩
  rw [hno]
  exact hno

theorem init_if_empty_no_op_w :
    init_if_empty [(Value.str "Chess Club", [("max_participants", Value.num 12)])]
        [[("_id", Value.str "Art Club")]] =
      [(Value.str "Chess Club", [("max_participants", Value.num 12)])] ∧
    init_if_empty
        (init_if_empty [(Value.str "Chess Club", [("max_participants", Value.num 12)])]
          [[("_id", Value.str "Art Club")]])
        [[("_id", Value.str "Art Club")]] =
      init_if_empty [(Value.str "Chess Club", [("max_participants", Value.num 12)])]
        [[("_id", Value.str "Art Club")]] :=
  init_if_empty_no_op _ _ (by decide)

/-- After writing `v` under `k`, the entries whose key equals `k` start with
`(k, v)`: the first query hit for that id is the freshly written document. -/
theorem filter_dictInsert_head (data : Store) (k : Value) (v : Doc)
    (p : Value × Doc → Bool) (hp : ∀ q, p q = decide (k = q.1)) :
    ((dictInsert data k v).filter p).head? = some (k, v) := by
  induction data with
  | nil => simp [dictInsert, List.filter, hp]
  | cons q rest ih =>
      obtain ⟨k0, v0⟩ := q
      by_cases h0 : k0 = k
      · subst h0
        simp [dictInsert, List.filter, hp]
      · simp only [dictInsert, if_neg h0]
        rw [List.filter_cons_of_neg, ih]
        rw [hp]
        simp [Ne.symm h0]

/-- `find_one` for the id of a just-written entry returns it, merged. -/
theorem find_one_id_dictInsert (data : Store) (k : Value) (v : Doc) :
    find_one (dictInsert data k v) [("_id", k)] = some (mergeId k v) := by
  unfold find_one find
  rw [List.head?_map, filter_dictInsert_head data k v _ ?_]
  · rfl
  · intro q
    simp [matchClause]

/-- C1: inserting a document carrying `"_id" = I` and then querying for that
id round-trips: `find_one` returns a document whose `"_id"` is `I` and whose
every other field has the value it had in the inserted document. -/
theorem insert_then_find_one (data : Store) (D : Doc) (I : Value)
    (hid : dictLookup D "_id" = some I)
    (hnd : (D.map Prod.fst).Nodup) :
    ∃ st : Store, insert_one data D = some (I, st) ∧
      ∃ ret : Doc, find_one st [("_id", I)] = some ret ∧
        dictLookup ret "_id" = some I ∧
        ∀ f : String, f ≠ "_id" → dictLookup ret f = dictLookup D f := by
  obtain ⟨rest, hpop, hne, hnd2⟩ := dictPop_of_lookup D "_id" I hid
  obtain ⟨hrnone, hrnd⟩ := hnd2 hnd
  refine ⟨dictInsert data I rest, by simp [insert_one, hpop],
    mergeId I rest, find_one_id_dictInsert data I rest, ?_, ?_⟩
  · rw [mergeId, dictLookup_foldl_dictInsert rest _ _ hrnd, hrnone]
    simp [dictLookup]
  · intro f hf
    rw [mergeId, dictLookup_foldl_dictInsert rest _ _ hrnd, hne f hf]
    cases hv : dictLookup D f with
    | some w => rfl
    | none => simp [dictLookup, Ne.symm hf]

theorem insert_then_find_one_w :
    ∃ st : Store,
      insert_one [] [("description", Value.str "chess"), ("_id", Value.str "Chess Club"),
        ("max_participants", Value.num 12)] = some (Value.str "Chess Club", st) ∧
      ∃ ret : Doc, find_one st [("_id", Value.str "Chess Club")] = some ret ∧
        dictLookup ret "_id" = some (Value.str "Chess Club") ∧
        ∀ f : String, f ≠ "_id" →
          dictLookup ret f =
            dictLookup [("description", Value.str "chess"), ("_id", Value.str "Chess Club"),
              ("max_participants", Value.num 12)] f :=
  insert_then_find_one [] _ (Value.str "Chess Club") (by decide) (by decide)

/-- C7: one `field → value` pair of a `"$pull"` update on a document: when
the field holds a list containing the value, exactly the first occurrence is
removed (`list.remove`); when the field is absent or the value does not
occur in the list, the document is unchanged (and no error escapes). -/
theorem pull_pair (d : Doc) (k : String) (val : Value) :
    (∀ xs, dictLookup d k = some (Value.arr xs) → val ∈ xs →
        ∃ l1 l2, xs = l1 ++ val :: l2 ∧ val ∉ l1 ∧
          pullStep d (k, val) = some (dictInsert d k (Value.arr (l1 ++ l2)))) ∧
    (dictLookup d k = none → pullStep d (k, val) = some d) ∧
    (∀ xs, dictLookup d k = some (Value.arr xs) → val ∉ xs →
        pullStep d (k, val) = some d) := by
  refine ⟨?_, ?_, ?_⟩
  · intro xs hlk hmem
    obtain ⟨l1, l2, hnl, hxs, herase⟩ := List.exists_erase_eq hmem
    have hin : pyInE val (Value.arr xs) = some true := by
      simp only [pyInE, Option.some.injEq, List.any_eq_true, decide_eq_true_eq]
      exact ⟨val, hmem, rfl⟩
    exact ⟨l1, l2, hxs, hnl, by simp [pullStep, hlk, hin, herase]⟩
  · intro hlk
    simp [pullStep, hlk]
  · intro xs hlk hmem
    have hin : pyInE val (Value.arr xs) = some false := by
      simp only [pyInE, Option.some.injEq, List.any_eq_false, decide_eq_true_eq]
      intro x hx e
      exact hmem (e ▸ hx)
    simp [pullStep, hlk, hin]

theorem pull_pair_w :
    (∃ l1 l2, [Value.str "a@x.edu", Value.str "b@x.edu"] = l1 ++ Value.str "a@x.edu" :: l2 ∧
        Value.str "a@x.edu" ∉ l1 ∧
        pullStep [("participants", Value.arr [Value.str "a@x.edu", Value.str "b@x.edu"])]
            ("participants", Value.str "a@x.edu") =
          some (dictInsert
            [("participants", Value.arr [Value.str "a@x.edu", Value.str "b@x.edu"])]
            "participants" (Value.arr (l1 ++ l2)))) ∧
    pullStep [("participants", Value.arr [Value.str "b@x.edu"])]
        ("teachers", Value.str "a@x.edu") =
      some [("participants", Value.arr [Value.str "b@x.edu"])] ∧
    pullStep [("participants", Value.arr [Value.str "b@x.edu"])]
        ("participants", Value.str "a@x.edu") =
      some [("participants", Value.arr [Value.str "b@x.edu"])] :=
  ⟨(pull_pair _ "participants" (Value.str "a@x.edu")).1
      [Value.str "a@x.edu", Value.str "b@x.edu"] (by decide) (by decide),
   (pull_pair _ "teachers" (Value.str "a@x.edu")).2.1 (by decide),
   (pull_pair _ "participants" (Value.str "a@x.edu")).2.2
      [Value.str "b@x.edu"] (by decide) (by decide)⟩

/-- C3: a dotted-path query clause is settled by descending the document
segment by segment (`resolveSegs`): the clause fails whenever the descent
fails (a missing segment or a non-dict along the way), and when the descent
yields a list and the query value is a dict whose `"$in"` holds a list of
candidates, the clause succeeds exactly when some candidate occurs in the
resolved list. -/
theorem dotted_clause_set_membership (key : Value) (fields : Doc) (qk : String)
    (hdot : strHasChar qk '.' = true) :
    (∀ qv, resolveSegs (Value.obj fields) (strSplitDot qk) = none →
        matchClause key fields qk qv = false) ∧
    (∀ m cands xs,
        resolveSegs (Value.obj fields) (strSplitDot qk) = some (Value.arr xs) →
        dictLookup m "$in" = some (Value.arr cands) →
        (matchClause key fields qk (Value.obj m) = true ↔
          ∃ c, c ∈ cands ∧ c ∈ xs)) := by
  have hne : qk ≠ "_id" := by
    intro e
    subst e
    exact absurd hdot (by decide)
  constructor
  · intro qv hres
    unfold matchClause
    rw [if_neg hne, if_pos hdot, hres]
  · intro m cands xs hres hin
    unfold matchClause
    rw [if_neg hne, if_pos hdot, hres]
    simp only [hin, iterElems, pyIn, List.any_eq_true, decide_eq_true_eq]
    constructor
    · rintro ⟨c, hc, x, hx, he⟩
      exact ⟨c, hc, he ▸ hx⟩
    · rintro ⟨c, hc, hcx⟩
      exact ⟨c, hc, c, hcx, rfl⟩

theorem dotted_clause_set_membership_w :
    matchClause (Value.str "Chess Club") [("description", Value.str "chess")]
        "schedule_details.days" (Value.str "Monday") = false ∧
    (matchClause (Value.str "Chess Club")
        [("schedule_details",
          Value.obj [("days", Value.arr [Value.str "Monday", Value.str "Friday"])])]
        "schedule_details.days"
        (Value.obj [("$in", Value.arr [Value.str "Monday", Value.str "Sunday"])]) = true ↔
      ∃ c, c ∈ [Value.str "Monday", Value.str "Sunday"] ∧
        c ∈ [Value.str "Monday", Value.str "Friday"]) :=
  ⟨(dotted_clause_set_membership (Value.str "Chess Club")
      [("description", Value.str "chess")] "schedule_details.days" (by decide)).1
      (Value.str "Monday") (by decide),
   (dotted_clause_set_membership (Value.str "Chess Club")
      [("schedule_details",
        Value.obj [("days", Value.arr [Value.str "Monday", Value.str "Friday"])])]
      "schedule_details.days" (by decide)).2
      [("$in", Value.arr [Value.str "Monday", Value.str "Sunday"])]
      [Value.str "Monday", Value.str "Sunday"]
      [Value.str "Monday", Value.str "Friday"] (by decide) (by decide)⟩

theorem dotted_clause_vacuous_w :
    matchClause (Value.str "Chess Club")
      [("schedule_details", Value.obj [("days", Value.arr [Value.str "Monday"])])]
      "schedule_details.days" (Value.str "Tuesday") = true :=
  dotted_clause_vacuous _ _ _ _ (Value.arr [Value.str "Monday"]) (by decide) (by decide)
    (fun m h => Value.noConfusion h)

/-- A list of values that are all strings is the image of a string list. -/
theorem all_isStr_exists_strings (l : List Value) (h : l.all Value.isStr = true) :
    ∃ ss : List String, l = ss.map Value.str := by
  induction l with
  | nil => exact ⟨[], rfl⟩
  | cons a rest ih =>
      simp only [List.all_cons, Bool.and_eq_true] at h
      obtain ⟨h1, h2⟩ := h
      obtain ⟨ss, hss⟩ := ih h2
      cases a with
      | str s => exact ⟨s :: ss, by rw [hss, List.map_cons]⟩
      | num n => exact absurd h1 (by simp [Value.isStr])
      | bool b => exact absurd h1 (by simp [Value.isStr])
      | arr xs => exact absurd h1 (by simp [Value.isStr])
      | obj m => exact absurd h1 (by simp [Value.isStr])

/-- On string values, `rV` is the string order. -/
theorem rV_str_iff (a b : String) : rV (Value.str a) (Value.str b) ↔ a ≤ b := by
  simp [rV, vle]

/-- `orderedInsert` by `rV` on embedded strings is `orderedInsert` on the
strings, embedded. -/
theorem orderedInsert_map_str (a : String) (ss : List String) :
    List.orderedInsert rV (Value.str a) (ss.map Value.str) =
      (List.orderedInsert (· ≤ ·) a ss).map Value.str := by
  induction ss with
  | nil => rfl
  | cons b rest ih =>
      simp only [List.map_cons, List.orderedInsert]
      by_cases h : a ≤ b
      · rw [if_pos ((rV_str_iff a b).mpr h), if_pos h, List.map_cons, List.map_cons]
      · rw [if_neg (fun hr => h ((rV_str_iff a b).mp hr)), if_neg h, List.map_cons, ih]

/-- `insertionSort` by `rV` on embedded strings is `insertionSort` on the
strings, embedded. -/
theorem insertionSort_map_str (ss : List String) :
    List.insertionSort rV (ss.map Value.str) =
      (List.insertionSort (· ≤ ·) ss).map Value.str := by
  induction ss with
  | nil => rfl
  | cons a rest ih =>
      simp only [List.map_cons, List.insertionSort, ih, orderedInsert_map_str]

/-- C4: `aggregate` recognizes exactly one pipeline shape — 3 stages, the
first containing `"$unwind"`, the second `"$group"`.  On that shape (and
with the day values strings, as in the seed data) it returns one
`{"_id": day}` record per distinct day occurring in any document's
`schedule_details.days`, sorted strictly ascending (so each day appears
exactly once); on every other shape it returns the empty sequence. -/
theorem aggregate_days_spec (data : Store) (pipeline : List Value) :
    (pipelineShape pipeline = true → (collectDays data).all Value.isStr = true →
        ∃ l : List String,
          aggregate data pipeline = l.map (fun d => [("_id", Value.str d)]) ∧
          List.Sorted (· < ·) l ∧
          ∀ s : String, s ∈ l ↔ Value.str s ∈ collectDays data) ∧
    (pipelineShape pipeline = false → aggregate data pipeline = []) := by
  constructor
  · intro hshape hstr
    have hdedup_all : (collectDays data).dedup.all Value.isStr = true := by
      rw [List.all_eq_true] at hstr ⊢
      intro x hx
      exact hstr x (List.mem_dedup.mp hx)
    obtain ⟨ss, hss⟩ := all_isStr_exists_strings _ hdedup_all
    have hnd : ss.Nodup := by
      have hd : ((collectDays data).dedup).Nodup := List.nodup_dedup _
      rw [hss] at hd
      exact hd.of_map
    refine ⟨List.insertionSort (· ≤ ·) ss, ?_, ?_, ?_⟩
    · unfold aggregate
      rw [if_pos hshape, hss, insertionSort_map_str, List.map_map]
      rfl
    · exact (List.sorted_insertionSort _ ss).lt_of_le
        (((List.perm_insertionSort _ ss).nodup_iff).mpr hnd)
    · intro s
      rw [List.mem_insertionSort]
      constructor
      · intro hs
        have hm : Value.str s ∈ (collectDays data).dedup := by
          rw [hss]
          exact List.mem_map_of_mem _ hs
        exact List.mem_dedup.mp hm
      · intro hs
        have hm : Value.str s ∈ (collectDays data).dedup := List.mem_dedup.mpr hs
        rw [hss] at hm
        obtain ⟨t, ht, he⟩ := List.mem_map.mp hm
        exact (Value.str.inj he) ▸ ht
  · intro hshape
    unfold aggregate
    simp [hshape]

theorem aggregate_days_spec_w :
    (∃ l : List String,
        aggregate sampleStore samplePipeline = l.map (fun d => [("_id", Value.str d)]) ∧
        List.Sorted (· < ·) l ∧
        ∀ s : String, s ∈ l ↔ Value.str s ∈ collectDays sampleStore) ∧
    aggregate sampleStore [Value.obj [("$match", Value.num 1)]] = [] :=
  ⟨(aggregate_days_spec sampleStore samplePipeline).1 (by decide) (by decide),
   (aggregate_days_spec sampleStore [Value.obj [("$match", Value.num 1)]]).2 (by decide)⟩

end MemDB
